import Mathlib

/-!
Verification of the `Blueprint` module of denali-cli (`src/blueprint.ts`).

The development shallowly embeds the blueprint system:

* the destination filesystem is a map from absolute path to file contents
  (`FS := String → Option String`); template files are given as a list of
  walk entries (path, directory flag, contents), mirroring `walk-sync`;
* lodash `template` with the custom `interpolate` settings used by the code
  is embedded as an executable scanner over character lists:
  `/__([\S]+)__/g` (greedy capture, used for filenames) and
  `/<%=([\s\S]+?)%>/g` (lazy capture, lodash's default `interpolate`, used
  for file contents both in `generate` and in `destroy`);
  evaluation of the captured JavaScript expression against the locals data
  is modelled as lookup of the captured text in a total map
  `Data := String → String`.  The `escape` and `evaluate` template settings
  (which lodash keeps at their defaults) are not modelled; both `generate`
  and `destroy` compile templates with identical settings, so equality of
  rendered output — the only fact the claims need — is unaffected;
* `generate` / `destroy` are translated statement by statement
  (`blueprint.ts` lines 166–260), with `ui.info` logging modelled as a list
  of log events for `generate`;
* `addRoute` / `removeRoute` (lines 292–353) act on an embedded routes-file
  AST: a router parameter name plus a flat list of statements, where a
  statement is either an expression statement calling
  `<object>.<property>(<string literal arguments>)` or anything else.
  jscodeshift's `matchNode` on an array pattern checks the pattern's own
  indices only, so the `arguments` filter is an elementwise *prefix* test;
  that semantics is embedded faithfully (`argsMatch`);
* blueprint discovery (lines 95–124) is embedded over module entries that
  record the directory name, the `isDirectory` test, whether the loaded
  module carried a `default` export, and the static `blueprintName` of the
  registered class.  Line 104 sets `.addon` on the object returned by
  `tryRequire`, while line 105 registers `BlueprintClass.default ||
  BlueprintClass`; hence a default-exported blueprint class never receives
  the `addon` property, which the embedding records as `addon = none`
  (JavaScript string coercion prints it as "undefined").
-/

namespace DenaliBlueprint

/-- Locals data produced by the `locals(argv)` hook.  Lodash evaluates each
captured marker as a JavaScript expression over this data; the embedding
models evaluation as a total map from the captured expression text to its
interpolated value. -/
def Data : Type := String → String

/-- The destination filesystem: absolute path to file contents. -/
def FS : Type := String → Option String

/-- `fs.writeFileSync` (also covering `mkdirp`, which only affects
directories). -/
def setFile (p c : String) (fs : FS) : FS :=
  fun q => if q = p then some c else fs q

/-- `rimraf.sync` on a single file. -/
def rmFile (p : String) (fs : FS) : FS :=
  fun q => if q = p then none else fs q

/-- `path.join(a, b)` for the joins the claims exercise (no `..` or
trailing-separator normalisation is needed by any claim). -/
def pathJoin (a b : String) : String := a ++ "/" ++ b

/-- One `ui.info` / `ui.error` message emitted by `generate`. -/
inductive LogEvent where
  | created (destRel : String)
  | alreadyExists (destRel : String)
  | postInstallFailed (msg : String)
  deriving Repr, DecidableEq

/-! ## The lodash template engine, specialised to the two settings used

`template(s, { interpolate: /__([\S]+)__/g })` and
`template(s, { interpolate: /<%=([\s\S]+?)%>/g })` (the latter is also
lodash's default, used by `destroy` at line 242).  The JavaScript regex
semantics — leftmost match, greedy `[\S]+` with backtracking for the
filename form, lazy `[\s\S]+?` for the content form — is embedded
directly. -/

/-- JavaScript `\S` (`Char.isWhitespace` covers the whitespace characters a
filename or template realistically contains). -/
def nonWS (c : Char) : Bool := !c.isWhitespace

/-- Greedy backtracking for `__([\S]+)__` once the opening `__` has been
consumed: try capture lengths `k, k-1, …, 1`; a length succeeds when the
captured characters are all non-whitespace and are followed by `__`.
Returns the capture and the remainder after the closing `__`. -/
def greedyCap (l : List Char) : Nat → Option (List Char × List Char)
  | 0 => none
  | k + 1 =>
    if (l.take (k + 1)).all nonWS ∧ (l.drop (k + 1)).take 2 = ['_', '_'] then
      some (l.take (k + 1), l.drop (k + 3))
    else
      greedyCap l k

/-- Try to match `__([\S]+)__` at the start of `l`. -/
def matchAtF (l : List Char) : Option (List Char × List Char) :=
  match l with
  | '_' :: '_' :: rest => greedyCap rest rest.length
  | _ => none

/-- Leftmost match of `__([\S]+)__`: returns
(text before the match, capture, text after the match). -/
def findF : List Char → Option (List Char × List Char × List Char)
  | [] => none
  | c :: rest =>
    match matchAtF (c :: rest) with
    | some (cap, rem) => some ([], cap, rem)
    | none =>
      match findF rest with
      | some (pre, cap, rem) => some (c :: pre, cap, rem)
      | none => none

/-- Lazy capture for `([\s\S]+?)%>`: consume the smallest non-empty run of
characters followed by `%>`. -/
def lazyCap : List Char → Option (List Char × List Char)
  | [] => none
  | c :: rest =>
    if rest.take 2 = ['%', '>'] then some ([c], rest.drop 2)
    else
      match lazyCap rest with
      | some (cap, rem) => some (c :: cap, rem)
      | none => none

/-- Whether `%>` occurs as a contiguous substring. -/
def containsPctGt : List Char → Bool
  | [] => false
  | c :: rest => (c == '%' && rest.take 1 == ['>']) || containsPctGt rest

/-- Try to match `<%=([\s\S]+?)%>` at the start of `l`. -/
def matchAtC (l : List Char) : Option (List Char × List Char) :=
  match l with
  | '<' :: '%' :: '=' :: rest => lazyCap rest
  | _ => none

/-- Leftmost match of `<%=([\s\S]+?)%>`. -/
def findC : List Char → Option (List Char × List Char × List Char)
  | [] => none
  | c :: rest =>
    match matchAtC (c :: rest) with
    | some (cap, rem) => some ([], cap, rem)
    | none =>
      match findC rest with
      | some (pre, cap, rem) => some (c :: pre, cap, rem)
      | none => none

/-- Evaluation of a captured JavaScript expression against the locals data:
the `Data` map sends the captured expression text to its value. -/
def evalExpr (data : Data) (cap : List Char) : String :=
  data (String.mk cap)

/-- Global replacement for the filename setting `/__([\S]+)__/g`.  The fuel
argument bounds the number of replacements; every match consumes at least
five characters of the input, so fuel equal to the input length always
suffices (see `renderFilename`). -/
def replaceF (data : Data) : Nat → List Char → List Char
  | 0, l => l
  | fuel + 1, l =>
    match findF l with
    | none => l
    | some (pre, cap, rem) => pre ++ (evalExpr data cap).toList ++ replaceF data fuel rem

/-- Global replacement for the content setting `/<%=([\s\S]+?)%>/g`. -/
def replaceC (data : Data) : Nat → List Char → List Char
  | 0, l => l
  | fuel + 1, l =>
    match findC l with
    | none => l
    | some (pre, cap, rem) => pre ++ (evalExpr data cap).toList ++ replaceC data fuel rem

/-- `template(relativepath, { interpolate: /__([\S]+)__/g })(data)` —
the filename template of `generate` (line 176) and `destroy` (line 222). -/
def renderFilename (data : Data) (s : String) : String :=
  String.mk (replaceF data s.toList.length s.toList)

/-- `template(contents, { interpolate: /<%=([\s\S]+?)%>/g })(data)` —
the content template of `generate` (line 189); `destroy` (line 242) calls
`template(templateSrc)` with no options, and lodash's default `interpolate`
is this same regex, so both compile to the same function. -/
def renderContent (data : Data) (s : String) : String :=
  String.mk (replaceC data s.toList.length s.toList)

/-! ## Template walk entries and `generate` / `destroy` -/

/-- One entry of `walk(this.templateFiles)`: the path relative to the
blueprint's `files/` directory, the result of the `isDirectory` test on its
absolute path, and (for files) its contents as read by `readFileSync`. -/
structure TFile where
  relativepath : String
  isDir : Bool
  contents : String
  deriving Repr, DecidableEq

/-- The absolute destination path of a template entry:
`path.join(dest, filenameTemplate(data))`. -/
def destAbs (dest : String) (data : Data) (t : TFile) : String :=
  pathJoin dest (renderFilename data t.relativepath)

/-- `generate` (lines 166–196): walk the template entries in order; skip
directories; for each file interpolate the filename, skip (and report) the
destination if it already exists, otherwise write the interpolated
contents.  Returns the resulting filesystem and the log of `ui.info`
events in emission order. -/
def generate (bp : List TFile) (data : Data) (dest : String) (fs : FS) :
    FS × List LogEvent :=
  match bp with
  | [] => (fs, [])
  | t :: ts =>
    if t.isDir then
      generate ts data dest fs
    else
      let destRel := renderFilename data t.relativepath
      let dA := pathJoin dest destRel
      if (fs dA).isSome then
        let r := generate ts data dest fs
        (r.1, LogEvent.alreadyExists destRel :: r.2)
      else
        let r := generate ts data dest (setFile dA (renderContent data t.contents) fs)
        (r.1, LogEvent.created destRel :: r.2)

/-- `generate` including the `try { await this.postInstall(argv) } catch`
block (lines 198–203): a rejected `postInstall` is caught and logged via
`ui.error`, so the returned promise still resolves. -/
def generateRun (bp : List TFile) (data : Data) (dest : String) (fs : FS)
    (postInstall : Except String Unit) : Except String (FS × List LogEvent) :=
  let r := generate bp data dest fs
  match postInstall with
  | Except.ok _ => Except.ok r
  | Except.error e => Except.ok (r.1, r.2 ++ [LogEvent.postInstallFailed e])

/-- The `filesToDelete` pipeline of `destroy` (lines 214–254): map every
walk entry to its destination path, keep the entries that are files and
whose destination exists, keep those whose on-disk contents equal the
freshly rendered template, and take the destination paths. -/
def filesToDelete (bp : List TFile) (data : Data) (dest : String) (fs : FS) :
    List String :=
  (((bp.filter fun t => !t.isDir && (fs (destAbs dest data t)).isSome).filter
      fun t => fs (destAbs dest data t) == some (renderContent data t.contents)).map
    fun t => destAbs dest data t)

/-- `destroy` (lines 210–260): delete every path in `filesToDelete` via
`rimraf.sync`.  No other state is read or written — in particular no
manifest of generated files exists; the decision is recomputed from the
template sources, the locals data and the current disk contents. -/
def destroy (bp : List TFile) (data : Data) (dest : String) (fs : FS) : FS :=
  (filesToDelete bp data dest fs).foldl (fun f p => rmFile p f) fs

/-! ## The routes-file patcher -/

/-- A statement of the default-exported route-drawing function's body, as
jscodeshift's filters see it: either an expression statement invoking
`obj.prop(args…)` with string-literal arguments, or any other statement. -/
inductive Stmt where
  | routerCall (obj : String) (prop : String) (args : List String)
  | other (code : String)
  deriving Repr, DecidableEq

/-- The parsed routes file: the name of the router parameter of the
default-exported function, and the function's body. -/
structure RoutesFile where
  routerParam : String
  body : List Stmt
  deriving Repr, DecidableEq

/-- jscodeshift `matchNode` on an array pattern checks the pattern's
indices against the node's, so a pattern of argument literals matches any
call whose argument list *starts with* those literals, elementwise. -/
def argsMatch : List String → List String → Bool
  | [], _ => true
  | _ :: _, [] => false
  | a :: as, b :: bs => a == b && argsMatch as bs

/-- The duplicate filter of `addRoute` (lines 300–310) and the removal
filter of `removeRoute` (lines 341–351): an expression statement calling
`<routerParam>.<method>` whose arguments start with
`[urlPattern, actionPath].concat(args)`. -/
def isDuplicateStmt (rp method url action : String) (args : List String) :
    Stmt → Bool
  | Stmt.routerCall o p as =>
    o == rp && p == method && argsMatch ([url, action] ++ args) as
  | Stmt.other _ => false

/-- The router-invocation filter of `addRoute` (lines 314–320): any
expression statement whose callee's object is the router parameter. -/
def isRouterInvocation (rp : String) : Stmt → Bool
  | Stmt.routerCall o _ _ => o == rp
  | Stmt.other _ => false

/-- Index of the last router invocation in the body, if any. -/
def lastRouterIdx (rp : String) : List Stmt → Option Nat
  | [] => none
  | s :: rest =>
    match lastRouterIdx rp rest with
    | some i => some (i + 1)
    | none => if isRouterInvocation rp s then some 0 else none

/-- `addRoute` (lines 292–328).  Returns the rewritten routes file and
whether `writeFileSync` was executed.  If a duplicate exists the function
returns before writing.  Otherwise it builds the new statement — note line
323: the inserted call's arguments are built from `args` *only*
(`args.map((arg) => j.stringLiteral(arg))`), dropping `urlPattern` and
`actionPath` — inserts it after the last router invocation (`insertAfter`
on an empty collection is a no-op), and writes the file. -/
def addRoute (rf : RoutesFile) (method url action : String)
    (args : List String) : RoutesFile × Bool :=
  if rf.body.any (isDuplicateStmt rf.routerParam method url action args) then
    (rf, false)
  else
    match lastRouterIdx rf.routerParam rf.body with
    | none => (rf, true)
    | some i =>
      ({ rf with
          body := rf.body.take (i + 1) ++
            [Stmt.routerCall rf.routerParam method args] ++
            rf.body.drop (i + 1) },
        true)

/-- `removeRoute` (lines 333–353): remove every statement matching the
duplicate pattern and write the file. -/
def removeRoute (rf : RoutesFile) (method url action : String)
    (args : List String) : RoutesFile :=
  { rf with
      body := rf.body.filter
        fun st => !isDuplicateStmt rf.routerParam method url action args st }

/-! ## Blueprint discovery -/

/-- The fields of a registered blueprint class that discovery touches.
`blueprintName` is the class's static field (`none` when the subclass never
assigns it); `addon` and `dir` are `none` until discovery assigns them. -/
structure BlueprintRec where
  blueprintName : Option String
  addon : Option String
  dir : Option String
  deriving Repr, DecidableEq

/-- One entry of `fs.readdirSync(dir)` together with what loading it
yields: the `isDirectory` test, whether the module returned by
`tryRequire` carries a `default` export (line 105: the registered class is
`BlueprintClass.default || BlueprintClass`), and the static
`blueprintName` of the registered class. -/
structure ModuleEntry where
  dirname : String
  isDir : Bool
  hasDefault : Bool
  bpName : Option String
  deriving Repr, DecidableEq

/-- The blueprint registry (`blueprintsSoFar`), a JavaScript object keyed
by invocation name. -/
def Registry : Type := String → Option BlueprintRec

def emptyRegistry : Registry := fun _ => none

/-- `m[k] = v` on a JavaScript object. -/
def regSet (m : Registry) (k : String) (v : BlueprintRec) : Registry :=
  fun q => if q = k then some v else m q

/-- JavaScript string-typed `x || y`: `undefined` and the empty string are
falsy. -/
def jsOr (bn : Option String) (fallback : String) : String :=
  match bn with
  | some s => if s = "" then fallback else s
  | none => fallback

/-- JavaScript string coercion of a possibly-`undefined` string property,
as performed by `clobberedBlueprint.addon + ':' + name` (line 120). -/
def jsShow : Option String → String
  | some s => s
  | none => "undefined"

/-- Loading one blueprint directory (lines 100–111): `tryRequire` the
module, set `.addon = addonName` on the module object, register
`module.default || module`, then set `.dir` on the registered class.  A
default-exported class therefore never receives the `addon` property. -/
def loadRec (addonName dir : String) (e : ModuleEntry) : BlueprintRec :=
  { blueprintName := e.bpName
  , addon := if e.hasDefault then none else some addonName
  , dir := some (pathJoin dir e.dirname) }

/-- `discoverBlueprintsForAddon` (lines 95–124): load the blueprint
directories, key them by `BlueprintClass.blueprintName || dirname`
(line 114, JavaScript truthiness), move every already-registered blueprint
with a colliding name to the key `clobberedBlueprint.addon + ':' + name`
(lines 118–121), and `assign` the new blueprints over the registry
(line 123).  Duplicate keys among the new blueprints behave like object
assignment: the later one wins, which `foldl` over `regSet` reproduces. -/
def discover (soFar : Registry) (addonName dir : String)
    (entries : List ModuleEntry) : Registry :=
  let newBps := (entries.filter fun e => e.isDir).map
    fun e => (jsOr e.bpName e.dirname, loadRec addonName dir e)
  let colliding := ((newBps.map Prod.fst).dedup).filter fun n => (soFar n).isSome
  let soFar1 := colliding.foldl
    (fun m n =>
      match m n with
      | some clobbered => regSet m (jsShow clobbered.addon ++ ":" ++ n) clobbered
      | none => m)
    soFar
  newBps.foldl (fun m kr => regSet m kr.1 kr.2) soFar1

/-- Modelled from the spec: the registered name as the claim reads it —
"its static blueprintName when that is set, and otherwise the name of the
directory the blueprint was loaded from".  Kept separate from `jsOr` (the
source's line 114) so the two can be compared. -/
def specRegisteredName (bn : Option String) (dirname : String) : String :=
  match bn with
  | some s => s
  | none => dirname

/-! ## `configureBlueprints` and the yargs instance -/

/-- The yargs instance, abstracted to the list of registered command
descriptions (its precise contents are irrelevant to the claims). -/
abbrev Yargs : Type := List String

/-- A blueprint's `configure` static: given the current yargs instance it
either returns the extended instance or throws. -/
abbrev BpConf : Type := Yargs → Except String Yargs

/-- One iteration of the `forEach` in `configureBlueprints` (lines 80–88):
reassign `yargs = BlueprintClass.configure(yargs, …)` inside `try`; a
throwing `configure` is logged via `ui.warn` and leaves the instance as it
was. -/
def configStep (y : Yargs) (nc : String × BpConf) : Yargs :=
  match nc.2 y with
  | Except.ok y2 => y2
  | Except.error _ => y

/-- `configureBlueprints` (lines 78–90): run `configStep` over every
discovered blueprint in order and return the resulting yargs instance. -/
def configureBlueprints (bps : List (String × BpConf)) (y : Yargs) : Yargs :=
  bps.foldl configStep y

/-! ## The system state after discovery -/

/-- Everything the post-discovery operations can touch: the registry built
by discovery, the project filesystem, the parsed routes file and the yargs
instance. -/
structure System where
  registry : Registry
  fs : FS
  routes : RoutesFile
  cli : Yargs

/-- The operations available on a discovered blueprint. -/
inductive Op where
  | generate (bp : List TFile) (data : Data) (dest : String)
      (postInstall : Except String Unit)
  | destroy (bp : List TFile) (data : Data) (dest : String)
  | addRoute (method url action : String) (args : List String)
  | removeRoute (method url action : String) (args : List String)
  | configure (bps : List (String × BpConf))

/-- Applying one post-discovery operation to the system state; each
operation is the corresponding embedded function from this file. -/
def applyOp (op : Op) (s : System) : System :=
  match op with
  | Op.generate bp data dest pi =>
    { s with
        fs :=
          match generateRun bp data dest s.fs pi with
          | Except.ok r => r.1
          | Except.error _ => s.fs }
  | Op.destroy bp data dest => { s with fs := destroy bp data dest s.fs }
  | Op.addRoute m u a as => { s with routes := (addRoute s.routes m u a as).1 }
  | Op.removeRoute m u a as => { s with routes := removeRoute s.routes m u a as }
  | Op.configure bps => { s with cli := configureBlueprints bps s.cli }

/-! ## Concrete fixtures used by witnesses and counterexamples -/

/-- A concrete locals map: the expression `name` interpolates to `a`, the
expression ` who ` (as captured from `<%= who %>`) to `world`. -/
def dataW : Data :=
  fun k => if k = "name" then "a" else if k = " who " then "world" else ""

/-- A one-file blueprint: template `__name__.txt` containing
`hello <%= who %>`. -/
def bpW : List TFile := [⟨"__name__.txt", false, "hello <%= who %>"⟩]

/-- An empty destination directory. -/
def fsEmpty : FS := fun _ => none

/-- A destination directory already holding `./a.txt`. -/
def fsA : FS := fun q => if q = "./a.txt" then some "hello world" else none

/-- A routes file `export default function drawRoutes(router) {
router.get('/a', 'a/show'); }`. -/
def rfW : RoutesFile := ⟨"router", [Stmt.routerCall "router" "get" ["/a", "a/show"]]⟩

/-- A blueprint directory `foo` whose class is exported directly
(`module.exports = class …`) and sets `static blueprintName = ''`. -/
def entryEmptyName : ModuleEntry := ⟨"foo", true, false, some ""⟩

/-- A blueprint directory `blog` whose class is the module's *default*
export and sets no `blueprintName`. -/
def entryDefaultBlog : ModuleEntry := ⟨"blog", true, true, none⟩

/-- A blueprint directory `blog` exported directly, no `blueprintName`. -/
def entryDirectBlog : ModuleEntry := ⟨"blog", true, false, none⟩

/-- The registry after addon `addonA` contributed `entryDefaultBlog`. -/
def regAfterA : Registry :=
  discover emptyRegistry "addonA" "dirA" [entryDefaultBlog]

/-- The registry after addon `addonB` then contributes a colliding
`blog` blueprint. -/
def regAfterB : Registry :=
  discover regAfterA "addonB" "dirB" [entryDirectBlog]

/-- A concrete system state. -/
def sysW : System := ⟨emptyRegistry, fsEmpty, rfW, []⟩

/-! ## Helper lemmas -/

theorem mk_toList (s : String) : String.mk s.toList = s := by
  cases s
  rfl

theorem rmFile_foldl (l : List String) (fs : FS) (q : String) :
    (l.foldl (fun f p => rmFile p f) fs) q = if q ∈ l then none else fs q := by
  induction l generalizing fs with
  | nil => simp
  | cons p l ih =>
    simp only [List.foldl_cons, ih, List.mem_cons]
    by_cases hq : q ∈ l
    · simp [hq]
    · by_cases hqp : q = p <;> simp [hq, hqp, rmFile]

theorem mem_filesToDelete (bp : List TFile) (data : Data) (dest : String)
    (fs : FS) (q : String) :
    q ∈ filesToDelete bp data dest fs ↔
      ∃ t, t ∈ bp ∧ t.isDir = false ∧ destAbs dest data t = q ∧
        fs q = some (renderContent data t.contents) := by
  simp only [filesToDelete, List.mem_map, List.mem_filter, Bool.and_eq_true,
    Bool.not_eq_true', beq_iff_eq, Option.isSome_iff_exists]
  constructor
  · rintro ⟨t, ⟨⟨⟨ht, hdir, -⟩, hval⟩, hq⟩⟩
    exact ⟨t, ht, hdir, hq, hq ▸ hval⟩
  · rintro ⟨t, ht, hdir, hq, hval⟩
    exact ⟨t, ⟨⟨ht, hdir, ⟨_, hq ▸ hval⟩⟩, hq ▸ hval⟩, hq⟩

theorem generate_frame (bp : List TFile) (data : Data) (dest : String)
    (fs : FS) (q : String)
    (h : ∀ t ∈ bp, t.isDir = false → destAbs dest data t ≠ q) :
    (generate bp data dest fs).1 q = fs q := by
  induction bp generalizing fs with
  | nil => rfl
  | cons t ts ih =>
    have hts : ∀ u ∈ ts, u.isDir = false → destAbs dest data u ≠ q :=
      fun u hu => h u (List.mem_cons_of_mem _ hu)
    by_cases hd : t.isDir
    · simp only [generate, hd, if_true]
      exact ih _ hts
    · by_cases hex : (fs (pathJoin dest (renderFilename data t.relativepath))).isSome
      · simp only [generate, hd, if_false, Bool.false_eq_true, hex, if_true]
        exact ih _ hts
      · simp only [generate, hd, if_false, Bool.false_eq_true, hex]
        rw [ih _ hts]
        have hne : pathJoin dest (renderFilename data t.relativepath) ≠ q := by
          have := h t (List.mem_cons_self _ _) (by simpa using hd)
          simpa [destAbs] using this
        simp only [setFile]
        exact if_neg fun hq => hne hq.symm

theorem generate_no_overwrite (bp : List TFile) (data : Data) (dest : String)
    (fs : FS) (q : String) (h : fs q ≠ none) :
    (generate bp data dest fs).1 q = fs q := by
  induction bp generalizing fs with
  | nil => rfl
  | cons t ts ih =>
    by_cases hd : t.isDir
    · simp only [generate, hd, if_true]
      exact ih _ h
    · by_cases hex : (fs (pathJoin dest (renderFilename data t.relativepath))).isSome
      · simp only [generate, hd, if_false, Bool.false_eq_true, hex, if_true]
        exact ih _ h
      · simp only [generate, hd, if_false, Bool.false_eq_true, hex]
        by_cases hq : q = pathJoin dest (renderFilename data t.relativepath)
        · exact absurd (hq ▸ h) (by simpa [Option.isSome_iff_ne_none] using hex)
        · rw [ih _ (by simpa [setFile, hq] using h)]
          simp [setFile, hq]

theorem generate_characterize (bp : List TFile) (data : Data) (dest : String)
    (fs : FS) (q : String) :
    (generate bp data dest fs).1 q = fs q ∨
      ∃ t, t ∈ bp ∧ t.isDir = false ∧ destAbs dest data t = q ∧
        (generate bp data dest fs).1 q = some (renderContent data t.contents) := by
  induction bp generalizing fs with
  | nil => exact Or.inl rfl
  | cons t ts ih =>
    by_cases hd : t.isDir
    · simp only [generate, hd, if_true]
      rcases ih fs with h | ⟨u, hu, h1, h2, h3⟩
      · exact Or.inl h
      · exact Or.inr ⟨u, List.mem_cons_of_mem _ hu, h1, h2, h3⟩
    · by_cases hex : (fs (pathJoin dest (renderFilename data t.relativepath))).isSome
      · simp only [generate, hd, if_false, Bool.false_eq_true, hex, if_true]
        rcases ih fs with h | ⟨u, hu, h1, h2, h3⟩
        · exact Or.inl h
        · exact Or.inr ⟨u, List.mem_cons_of_mem _ hu, h1, h2, h3⟩
      · simp only [generate, hd, if_false, Bool.false_eq_true, hex]
        set dA := pathJoin dest (renderFilename data t.relativepath) with hdA
        set fs1 := setFile dA (renderContent data t.contents) fs with hfs1
        rcases ih fs1 with h | ⟨u, hu, h1, h2, h3⟩
        · by_cases hq : q = dA
          · refine Or.inr ⟨t, List.mem_cons_self _ _, by simpa using hd, by simp [destAbs, hdA, hq], ?_⟩
            rw [h, hfs1, hq]
            simp [setFile]
          · refine Or.inl ?_
            rw [h, hfs1]
            simp [setFile, hq]
        · exact Or.inr ⟨u, List.mem_cons_of_mem _ hu, h1, h2, h3⟩

theorem greedyCap_succ (l : List Char) (k : Nat) :
    greedyCap l (k + 1) =
      if (l.take (k + 1)).all nonWS ∧ (l.drop (k + 1)).take 2 = ['_', '_'] then
        some (l.take (k + 1), l.drop (k + 3))
      else greedyCap l k := rfl

theorem greedyCap_marker (name : List Char) (h1 : name ≠ [])
    (h2 : name.all nonWS = true) :
    greedyCap (name ++ ['_', '_']) (name.length + 2) = some (name, []) := by
  obtain ⟨c, cs, rfl⟩ : ∃ c cs, name = c :: cs := by
    cases name with
    | nil => exact absurd rfl h1
    | cons c cs => exact ⟨c, cs, rfl⟩
  simp only [List.length_cons]
  have hB3 : (((c :: cs) ++ ['_', '_']).drop (cs.length + 1 + 1 + 1)).take 2 ≠ ['_', '_'] := by
    rw [List.drop_of_length_le (by simp only [List.length_append, List.length_cons, List.length_nil]; omega)]
    simp
  have hdrop1 : ((c :: cs) ++ ['_', '_']).drop (cs.length + 1 + 1) = ['_'] := by
    have harith : cs.length + 1 + 1 - (c :: cs).length = 1 := by
      simp only [List.length_cons]
      omega
    rw [List.drop_append_eq_append_drop,
      List.drop_of_length_le (by simp only [List.length_cons]; omega), harith]
    rfl
  have hB2 : ((((c :: cs) ++ ['_', '_']).drop (cs.length + 1 + 1)).take 2) ≠ ['_', '_'] := by
    rw [hdrop1]
    simp
  have htake : ((c :: cs) ++ ['_', '_']).take (cs.length + 1) = c :: cs :=
    List.take_left' (by simp)
  have hdrop0 : ((c :: cs) ++ ['_', '_']).drop (cs.length + 1) = ['_', '_'] :=
    List.drop_left' (by simp)
  show greedyCap ((c :: cs) ++ ['_', '_']) (cs.length + 1 + 1 + 1) = some (c :: cs, [])
  rw [greedyCap_succ, if_neg fun hc => hB3 hc.2]
  rw [greedyCap_succ, if_neg fun hc => hB2 hc.2]
  rw [greedyCap_succ, if_pos ⟨by rw [htake]; exact h2, by rw [hdrop0]; rfl⟩]
  rw [htake, List.drop_of_length_le (by simp only [List.length_append, List.length_cons, List.length_nil]; omega)]

theorem replaceF_succ (data : Data) (fuel : Nat) (l : List Char) :
    replaceF data (fuel + 1) l =
      match findF l with
      | none => l
      | some (pre, cap, rem) =>
        pre ++ (evalExpr data cap).toList ++ replaceF data fuel rem := rfl

theorem replaceC_succ (data : Data) (fuel : Nat) (l : List Char) :
    replaceC data (fuel + 1) l =
      match findC l with
      | none => l
      | some (pre, cap, rem) =>
        pre ++ (evalExpr data cap).toList ++ replaceC data fuel rem := rfl

theorem replaceF_nil (data : Data) (fuel : Nat) : replaceF data fuel [] = [] := by
  cases fuel with
  | zero => rfl
  | succ n => rfl

theorem replaceC_nil (data : Data) (fuel : Nat) : replaceC data fuel [] = [] := by
  cases fuel with
  | zero => rfl
  | succ n => rfl

theorem findF_marker (name : List Char) (h1 : name ≠ [])
    (h2 : name.all nonWS = true) :
    findF ('_' :: '_' :: (name ++ ['_', '_'])) = some ([], name, []) := by
  have hm : matchAtF ('_' :: '_' :: (name ++ ['_', '_'])) = some (name, []) := by
    show greedyCap (name ++ ['_', '_']) (name ++ ['_', '_']).length = some (name, [])
    have hlen : (name ++ ['_', '_']).length = name.length + 2 := by
      simp only [List.length_append, List.length_cons, List.length_nil]
    rw [hlen]
    exact greedyCap_marker name h1 h2
  simp [findF, hm]

theorem renderFilename_marker (data : Data) (name : String) (h1 : name ≠ "")
    (h2 : name.toList.all nonWS = true) :
    renderFilename data ("__" ++ name ++ "__") = data name := by
  have hlist : ("__" ++ name ++ "__").toList =
      '_' :: '_' :: (name.toList ++ ['_', '_']) := rfl
  have hne : name.toList ≠ [] := by
    intro h
    apply h1
    have := congrArg String.mk h
    rwa [mk_toList] at this
  show String.mk (replaceF data ("__" ++ name ++ "__").toList.length
      ("__" ++ name ++ "__").toList) = data name
  rw [hlist]
  simp only [List.length_cons, List.length_append, List.length_nil]
  rw [show name.toList.length + 2 + 1 + 1 = (name.toList.length + 2 + 1) + 1 from rfl,
    replaceF_succ, findF_marker name.toList hne h2]
  simp [replaceF_nil, evalExpr, mk_toList]

theorem lazyCap_cons (c : Char) (rest : List Char) :
    lazyCap (c :: rest) =
      if rest.take 2 = ['%', '>'] then some ([c], rest.drop 2)
      else
        match lazyCap rest with
        | some (cap, rem) => some (c :: cap, rem)
        | none => none := rfl

theorem containsPctGt_cons (c : Char) (rest : List Char) :
    containsPctGt (c :: rest) =
      ((c == '%' && rest.take 1 == ['>']) || containsPctGt rest) := rfl

theorem lazyCap_marker (e : List Char) (h1 : e ≠ [])
    (h2 : containsPctGt e = false) :
    lazyCap (e ++ ['%', '>']) = some (e, []) := by
  induction e with
  | nil => exact absurd rfl h1
  | cons c cs ih =>
    rw [List.cons_append, lazyCap_cons]
    cases cs with
    | nil =>
      rw [if_pos (by rfl)]
      rfl
    | cons d ds =>
      have h2' : containsPctGt (d :: ds) = false := by
        rw [containsPctGt_cons] at h2
        exact (Bool.or_eq_false_iff.mp h2).2
      have hcond : ¬ (((d :: ds) ++ ['%', '>']).take 2 = ['%', '>']) := by
        rw [List.cons_append]
        intro hc
        have hc2 : d :: ((ds ++ ['%', '>']).take 1) = ['%', '>'] := hc
        injection hc2 with hd htl
        cases ds with
        | nil => exact absurd htl (by decide)
        | cons g gs =>
          have htl2 : [g] = ['>'] := htl
          injection htl2 with hg
          rw [containsPctGt_cons] at h2'
          have hfst : (d == '%' && ((g :: gs).take 1) == ['>']) = true := by
            subst hd
            subst hg
            rfl
          rw [hfst] at h2'
          exact absurd h2' (by simp)
      rw [if_neg hcond]
      rw [ih (by simp) h2']

theorem findC_marker (e : List Char) (h1 : e ≠ [])
    (h2 : containsPctGt e = false) :
    findC ('<' :: '%' :: '=' :: (e ++ ['%', '>'])) = some ([], e, []) := by
  have hm : matchAtC ('<' :: '%' :: '=' :: (e ++ ['%', '>'])) = some (e, []) := by
    show lazyCap (e ++ ['%', '>']) = some (e, [])
    exact lazyCap_marker e h1 h2
  simp [findC, hm]

theorem renderContent_marker (data : Data) (e : String) (h1 : e ≠ "")
    (h2 : containsPctGt e.toList = false) :
    renderContent data ("<%=" ++ e ++ "%>") = data e := by
  have hlist : ("<%=" ++ e ++ "%>").toList =
      '<' :: '%' :: '=' :: (e.toList ++ ['%', '>']) := rfl
  have hne : e.toList ≠ [] := by
    intro h
    apply h1
    have := congrArg String.mk h
    rwa [mk_toList] at this
  show String.mk (replaceC data ("<%=" ++ e ++ "%>").toList.length
      ("<%=" ++ e ++ "%>").toList) = data e
  rw [hlist]
  simp only [List.length_cons, List.length_append, List.length_nil]
  rw [show e.toList.length + 2 + 1 + 1 + 1 = (e.toList.length + 2 + 1 + 1) + 1 from rfl,
    replaceC_succ, findC_marker e.toList hne h2]
  simp [replaceC_nil, evalExpr, mk_toList]

theorem mem_destAbs_map {data : Data} {dest : String} {v : TFile}
    {ts : List TFile} (hv : v ∈ ts) (h2 : v.isDir = false) :
    destAbs dest data v ∈
      ((ts.filter fun t => !t.isDir).map fun t => destAbs dest data t) :=
  List.mem_map_of_mem _ (List.mem_filter.mpr ⟨hv, by simp [h2]⟩)

theorem generate_writes (bp : List TFile) (data : Data) (dest : String)
    (fs : FS)
    (hnone : ∀ t ∈ bp, t.isDir = false → fs (destAbs dest data t) = none)
    (hnd : ((bp.filter fun t => !t.isDir).map fun t => destAbs dest data t).Nodup) :
    ∀ t ∈ bp, t.isDir = false →
      (generate bp data dest fs).1 (destAbs dest data t) =
        some (renderContent data t.contents) := by
  induction bp generalizing fs with
  | nil => intro t ht; exact absurd ht (List.not_mem_nil t)
  | cons u ts ih =>
    intro t ht hdir
    by_cases hd : u.isDir
    · have hmem : t ∈ ts := by
        rcases List.mem_cons.mp ht with rfl | h
        · exact absurd hd (by simp [hdir])
        · exact h
      simp only [generate, hd, if_true]
      refine ih fs (fun v hv h2 => hnone v (List.mem_cons_of_mem _ hv) h2) ?_ t hmem hdir
      simpa [List.filter_cons, hd] using hnd
    · have hexu : fs (destAbs dest data u) = none :=
        hnone u (List.mem_cons_self _ _) (by simpa using hd)
      have hex : (fs (pathJoin dest (renderFilename data u.relativepath))).isSome = false := by
        simpa [destAbs] using congrArg Option.isSome hexu
      simp only [generate, hd, if_false, Bool.false_eq_true, hex]
      have hnd' : ((ts.filter fun t => !t.isDir).map fun t => destAbs dest data t).Nodup ∧
          destAbs dest data u ∉ ((ts.filter fun t => !t.isDir).map fun t => destAbs dest data t) := by
        have : (((u :: ts).filter fun t => !t.isDir).map fun t => destAbs dest data t) =
            destAbs dest data u :: ((ts.filter fun t => !t.isDir).map fun t => destAbs dest data t) := by
          simp [List.filter_cons, hd]
        rw [this] at hnd
        exact ⟨hnd.of_cons, (List.nodup_cons.mp hnd).1⟩
      set dA := pathJoin dest (renderFilename data u.relativepath) with hdA
      set fs1 := setFile dA (renderContent data u.contents) fs with hfs1
      rcases List.mem_cons.mp ht with rfl | hmem
      · have hframe : ∀ v ∈ ts, v.isDir = false → destAbs dest data v ≠ destAbs dest data t := by
          intro v hv h2 heq
          exact hnd'.2 (heq ▸ mem_destAbs_map hv h2)
        rw [generate_frame ts data dest fs1 _ hframe, hfs1]
        simp [setFile, destAbs, hdA]
      · refine ih fs1 ?_ hnd'.1 t hmem hdir
        intro v hv h2
        have hne : destAbs dest data v ≠ dA := by
          intro heq
          refine hnd'.2 ?_
          have := @mem_destAbs_map data dest _ _ hv h2
          rw [heq] at this
          simpa [destAbs, hdA] using this
        rw [hfs1]
        simpa [setFile, hne] using hnone v (List.mem_cons_of_mem _ hv) h2

theorem generate_log_exists (bp : List TFile) (data : Data) (dest : String)
    (fs : FS) (t : TFile) (ht : t ∈ bp) (hdir : t.isDir = false)
    (hex : fs (destAbs dest data t) ≠ none) :
    LogEvent.alreadyExists (renderFilename data t.relativepath) ∈
      (generate bp data dest fs).2 := by
  have main : ∀ (l : List TFile) (g : FS), t ∈ l → g (destAbs dest data t) ≠ none →
      LogEvent.alreadyExists (renderFilename data t.relativepath) ∈
        (generate l data dest g).2 := by
    intro l
    induction l with
    | nil => intro g h; exact absurd h (List.not_mem_nil t)
    | cons u ts ih =>
      intro g hmem hg
      by_cases hd : u.isDir
      · have hmem2 : t ∈ ts := by
          rcases List.mem_cons.mp hmem with rfl | h
          · exact absurd hd (by simp [hdir])
          · exact h
        simp only [generate, hd, if_true]
        exact ih g hmem2 hg
      · by_cases hexu : (g (pathJoin dest (renderFilename data u.relativepath))).isSome
        · simp only [generate, hd, if_false, Bool.false_eq_true, hexu, if_true]
          rcases List.mem_cons.mp hmem with rfl | hmem2
          · exact List.mem_cons_self _ _
          · exact List.mem_cons_of_mem _ (ih g hmem2 hg)
        · simp only [generate, hd, if_false, Bool.false_eq_true, hexu]
          rcases List.mem_cons.mp hmem with rfl | hmem2
          · exact absurd hg (by simpa [destAbs, Option.isSome_iff_ne_none] using hexu)
          · refine List.mem_cons_of_mem _ (ih _ hmem2 ?_)
            simp only [setFile]
            by_cases hq : destAbs dest data t = pathJoin dest (renderFilename data u.relativepath) <;>
              simp [hq, hg]
  exact main bp fs ht hex

theorem regSet_foldl_frame (l : List (String × BlueprintRec)) (k : String)
    (h : k ∉ l.map Prod.fst) (m : Registry) :
    (l.foldl (fun m kr => regSet m kr.1 kr.2) m) k = m k := by
  have main : ∀ (l2 : List (String × BlueprintRec)), k ∉ l2.map Prod.fst →
      ∀ (m2 : Registry), (l2.foldl (fun m kr => regSet m kr.1 kr.2) m2) k = m2 k := by
    intro l2
    induction l2 with
    | nil => intro _ m2; rfl
    | cons p tl ih =>
      intro hk m2
      simp only [List.map_cons, List.mem_cons] at hk
      push_neg at hk
      rw [List.foldl_cons, ih hk.2]
      simp [regSet, hk.1]
  exact main l h m

theorem regSet_foldl_mem (l : List (String × BlueprintRec)) (k : String)
    (r : BlueprintRec) (hnd : (l.map Prod.fst).Nodup) (hmem : (k, r) ∈ l)
    (m : Registry) :
    (l.foldl (fun m kr => regSet m kr.1 kr.2) m) k = some r := by
  have main : ∀ (l2 : List (String × BlueprintRec)), (l2.map Prod.fst).Nodup →
      (k, r) ∈ l2 →
      ∀ (m2 : Registry), (l2.foldl (fun m kr => regSet m kr.1 kr.2) m2) k = some r := by
    intro l2
    induction l2 with
    | nil => intro _ hm; exact absurd hm (List.not_mem_nil _)
    | cons p tl ih =>
      intro hn hm m2
      simp only [List.map_cons, List.nodup_cons] at hn
      rcases List.mem_cons.mp hm with rfl | hm2
      · rw [List.foldl_cons, regSet_foldl_frame _ _ hn.1]
        simp [regSet]
      · rw [List.foldl_cons]
        exact ih hn.2 hm2 _
  exact main l hnd hmem m

theorem argsMatch_self (l : List String) : argsMatch l l = true := by
  induction l with
  | nil => rfl
  | cons a as ih => simp [argsMatch, ih]

/-! ## Claims -/

/-- Claim C1: generate followed by destroy reverses the copy — for every
blueprint and fixed locals data, if `generate` runs in a directory where no
destination file exists and the generated files are not modified
afterwards, then `destroy` with the same data deletes every file
`generate` created. -/
theorem c1_generate_then_destroy_deletes (bp : List TFile) (data : Data)
    (dest : String) (fs0 : FS)
    (_hfresh : ∀ t ∈ bp, t.isDir = false → fs0 (destAbs dest data t) = none) :
    ∀ q, (generate bp data dest fs0).1 q ≠ fs0 q →
      destroy bp data dest ((generate bp data dest fs0).1) q = none := by
  intro q hq
  rcases generate_characterize bp data dest fs0 q with h | ⟨t, ht, hdir, hdest, hval⟩
  · exact absurd h hq
  · show ((filesToDelete bp data dest _).foldl (fun f p => rmFile p f) _) q = none
    rw [rmFile_foldl,
      if_pos ((mem_filesToDelete bp data dest _ q).mpr ⟨t, ht, hdir, hdest, hval⟩)]

theorem c1_witness :
    (∀ t ∈ bpW, t.isDir = false → fsEmpty (destAbs "." dataW t) = none) ∧
    destroy bpW dataW "." ((generate bpW dataW "." fsEmpty).1) "./a.txt" = none := by
  refine ⟨fun t ht h2 => rfl, ?_⟩
  exact c1_generate_then_destroy_deletes bpW dataW "." fsEmpty
    (fun t ht h2 => rfl) "./a.txt" (by decide)

/-- Claim C2: `destroy` deletes a destination file exactly when some
template entry maps to it, the file exists, and its on-disk contents equal
the template rendered with the locals data computed at destroy time; every
other file is untouched.  The deletion decision is a function of the
template sources, the locals data and the current filesystem alone — no
persisted manifest exists in the model, mirroring the code. -/
theorem c2_destroy_characterization (bp : List TFile) (data : Data)
    (dest : String) (fs : FS) (q : String) :
    destroy bp data dest fs q =
      (if q ∈ filesToDelete bp data dest fs then none else fs q) ∧
    (q ∈ filesToDelete bp data dest fs ↔
      ∃ t, t ∈ bp ∧ t.isDir = false ∧ destAbs dest data t = q ∧
        fs q = some (renderContent data t.contents)) :=
  ⟨rmFile_foldl _ _ _, mem_filesToDelete bp data dest fs q⟩

/-- Claim C3: the destination relative path is the template path rendered
through the `__name__` filename template and the written contents are the
template contents rendered through the `<%= expression %>` content
template; a lone `__name__` marker interpolates to the locals value of
`name`, and a lone `<%= e %>` marker to the locals value of `e`. -/
theorem c3_generate_interpolates :
    (∀ (bp : List TFile) (data : Data) (dest : String) (fs0 : FS),
        (∀ t ∈ bp, t.isDir = false → fs0 (destAbs dest data t) = none) →
        ((bp.filter fun t => !t.isDir).map fun t => destAbs dest data t).Nodup →
        ∀ t ∈ bp, t.isDir = false →
          (generate bp data dest fs0).1
              (pathJoin dest (renderFilename data t.relativepath)) =
            some (renderContent data t.contents)) ∧
    (∀ (data : Data) (name : String), name ≠ "" → name.toList.all nonWS = true →
        renderFilename data ("__" ++ name ++ "__") = data name) ∧
    (∀ (data : Data) (e : String), e ≠ "" → containsPctGt e.toList = false →
        renderContent data ("<%=" ++ e ++ "%>") = data e) := by
  refine ⟨?_, renderFilename_marker, renderContent_marker⟩
  intro bp data dest fs0 h1 h2 t ht hdir
  have h := generate_writes bp data dest fs0 h1 h2 t ht hdir
  simpa [destAbs] using h

theorem c3_witness :
    (generate bpW dataW "." fsEmpty).1
        (pathJoin "." (renderFilename dataW "__name__.txt")) =
      some (renderContent dataW "hello <%= who %>") ∧
    renderFilename dataW "__name__" = "a" ∧
    renderContent dataW "<%= who %>" = "world" := by
  refine ⟨c3_generate_interpolates.1 bpW dataW "." fsEmpty (fun t ht h2 => rfl)
    (by decide) ⟨"__name__.txt", false, "hello <%= who %>"⟩ (by decide) rfl, ?_, ?_⟩
  · have h := c3_generate_interpolates.2.1 dataW "name" (by decide) (by decide)
    calc renderFilename dataW "__name__"
        = renderFilename dataW ("__" ++ "name" ++ "__") := rfl
      _ = dataW "name" := h
      _ = "a" := rfl
  · have h := c3_generate_interpolates.2.2 dataW " who " (by decide) (by decide)
    calc renderContent dataW "<%= who %>"
        = renderContent dataW ("<%=" ++ " who " ++ "%>") := rfl
      _ = dataW " who " := h
      _ = "world" := rfl

/-- Claim C4 is a code bug: `addRoute` is documented to add the route, and
its own duplicate check looks for `[urlPattern, actionPath].concat(args)`,
but line 323 builds the inserted call's arguments from the rest parameter
`args` alone, dropping `urlPattern` and `actionPath`.  On a routes file
with one existing route, `addRoute('post', '/b', 'b/create')` inserts
`router.post()` with no arguments, and the statement the claim (and the
duplicate check) expects never appears. -/
theorem c4_addRoute_drops_route_arguments :
    addRoute rfW "post" "/b" "b/create" [] =
      (⟨"router", [Stmt.routerCall "router" "get" ["/a", "a/show"],
                   Stmt.routerCall "router" "post" []]⟩, true) ∧
    Stmt.routerCall "router" "post" ["/b", "b/create"] ∉
      (addRoute rfW "post" "/b" "b/create" []).1.body := by
  decide

/-- Claim C5 counterexample: a blueprint whose class sets
`static blueprintName = ''` has its `blueprintName` set, yet JavaScript
truthiness (`BlueprintClass.blueprintName || blueprintDir`, line 114) makes
discovery fall back to the directory name: the blueprint is registered
under `foo`, not under the set name `''`. -/
theorem c5_counterexample :
    specRegisteredName (some "") "foo" = "" ∧
    (discover emptyRegistry "addonA" "bps" [entryEmptyName]) "" = none ∧
    (discover emptyRegistry "addonA" "bps" [entryEmptyName]) "foo" =
      some (loadRec "addonA" "bps" entryEmptyName) := by
  refine ⟨rfl, by decide, by decide⟩

/-- Claim C5 (amended): every discovered blueprint is registered under its
static `blueprintName` when that is set to a non-empty string, and
otherwise (unset or empty, i.e. JavaScript-falsy) under the name of the
directory it was loaded from — provided the discovered invocation names do
not collide among themselves. -/
theorem c5_registered_name (soFar : Registry) (addonName dir : String)
    (entries : List ModuleEntry)
    (hnd : ((entries.filter fun e => e.isDir).map
        fun e => jsOr e.bpName e.dirname).Nodup) :
    ∀ e ∈ entries, e.isDir = true →
      discover soFar addonName dir entries (jsOr e.bpName e.dirname) =
        some (loadRec addonName dir e) := by
  intro e he hdir
  apply regSet_foldl_mem
  · simpa [List.map_map, Function.comp] using hnd
  · exact List.mem_map_of_mem _ (List.mem_filter.mpr ⟨he, hdir⟩)

theorem c5_witness :
    (([entryDirectBlog].filter fun e => e.isDir).map
        fun e => jsOr e.bpName e.dirname).Nodup ∧
    discover emptyRegistry "addonB" "dirB" [entryDirectBlog]
        (jsOr entryDirectBlog.bpName entryDirectBlog.dirname) =
      some (loadRec "addonB" "dirB" entryDirectBlog) := by
  exact ⟨by decide, c5_registered_name emptyRegistry "addonB" "dirB"
    [entryDirectBlog] (by decide) entryDirectBlog (by decide) rfl⟩

/-- Claim C6: hook failures are contained — `generate` resolves even when
`postInstall` rejects (the `try`/`catch` at lines 198–203 swallows the
rejection), and a blueprint whose `configure` throws does not stop
`configureBlueprints` from configuring the remaining blueprints (lines
81–87). -/
theorem c6_hook_failures_contained :
    (∀ (bp : List TFile) (data : Data) (dest : String) (fs : FS)
        (pi : Except String Unit),
        ∃ r, generateRun bp data dest fs pi = Except.ok r) ∧
    (∀ (pre post : List (String × BpConf)) (y : Yargs) (nm : String)
        (conf : BpConf), (∀ y2, ∃ e, conf y2 = Except.error e) →
        configureBlueprints (pre ++ (nm, conf) :: post) y =
          configureBlueprints post (configureBlueprints pre y)) := by
  constructor
  · intro bp data dest fs pi
    cases pi with
    | ok u => exact ⟨_, rfl⟩
    | error e => exact ⟨_, rfl⟩
  · intro pre post y nm conf hconf
    show (pre ++ (nm, conf) :: post).foldl configStep y = _
    rw [List.foldl_append, List.foldl_cons]
    obtain ⟨e, he⟩ := hconf (List.foldl configStep y pre)
    rw [show configStep (List.foldl configStep y pre) (nm, conf) =
        List.foldl configStep y pre from by simp [configStep, he]]
    rfl

theorem c6_witness :
    (∃ r, generateRun bpW dataW "." fsEmpty (Except.error "boom") = Except.ok r) ∧
    configureBlueprints
        ([("ok", fun y => Except.ok (y ++ ["ok"]))] ++
          ("bad", fun _ => Except.error "bad") ::
            [("ok2", fun y => Except.ok (y ++ ["ok2"]))]) [] =
      configureBlueprints [("ok2", fun y => Except.ok (y ++ ["ok2"]))]
        (configureBlueprints [("ok", fun y => Except.ok (y ++ ["ok"]))] []) := by
  exact ⟨c6_hook_failures_contained.1 bpW dataW "." fsEmpty (Except.error "boom"),
    c6_hook_failures_contained.2 [("ok", fun y => Except.ok (y ++ ["ok"]))]
      [("ok2", fun y => Except.ok (y ++ ["ok2"]))] [] "bad"
      (fun _ => Except.error "bad") (fun y2 => ⟨"bad", rfl⟩)⟩

/-- Claim C7: a blueprint definition is immutable after discovery — the
registered name, addon attribution and source directory are determined by
`discoverBlueprintsForAddon` (which sets `dir` on the registered class and
`addon` on the loaded module, so on the class exactly when the class is
the module itself), and no later operation (`configure`, `generate`,
`destroy`, `addRoute`, `removeRoute`) changes the registry or any
registered record. -/
theorem c7_blueprint_immutable_after_discovery :
    (∀ (op : Op) (s : System), (applyOp op s).registry = s.registry) ∧
    (∀ (addonName dir : String) (e : ModuleEntry),
        (loadRec addonName dir e).blueprintName = e.bpName ∧
        (loadRec addonName dir e).dir = some (pathJoin dir e.dirname)) ∧
    (∀ (addonName dir : String) (e : ModuleEntry), e.hasDefault = false →
        (loadRec addonName dir e).addon = some addonName) := by
  refine ⟨?_, fun a d e => ⟨rfl, rfl⟩, fun a d e h => by simp [loadRec, h]⟩
  intro op s
  cases op <;> rfl

theorem c7_witness :
    (applyOp (Op.destroy bpW dataW ".") sysW).registry = sysW.registry ∧
    (loadRec "addonA" "bps" entryEmptyName).addon = some "addonA" := by
  exact ⟨c7_blueprint_immutable_after_discovery.1 (Op.destroy bpW dataW ".") sysW,
    c7_blueprint_immutable_after_discovery.2.2 "addonA" "bps" entryEmptyName rfl⟩

/-- Claim C8: `generate` never overwrites an existing file — an existing
destination keeps its contents, and each template file whose destination
already exists is reported with an `already exists` message (lines
183–186). -/
theorem c8_generate_never_overwrites :
    (∀ (bp : List TFile) (data : Data) (dest : String) (fs : FS) (q : String),
        fs q ≠ none → (generate bp data dest fs).1 q = fs q) ∧
    (∀ (bp : List TFile) (data : Data) (dest : String) (fs : FS) (t : TFile),
        t ∈ bp → t.isDir = false → fs (destAbs dest data t) ≠ none →
        LogEvent.alreadyExists (renderFilename data t.relativepath) ∈
          (generate bp data dest fs).2) :=
  ⟨generate_no_overwrite, generate_log_exists⟩

theorem c8_witness :
    fsA "./a.txt" ≠ none ∧
    (generate bpW dataW "." fsA).1 "./a.txt" = fsA "./a.txt" ∧
    LogEvent.alreadyExists "a.txt" ∈ (generate bpW dataW "." fsA).2 := by
  refine ⟨by decide,
    c8_generate_never_overwrites.1 bpW dataW "." fsA "./a.txt" (by decide), ?_⟩
  have h := c8_generate_never_overwrites.2 bpW dataW "." fsA
    ⟨"__name__.txt", false, "hello <%= who %>"⟩ (by decide) rfl (by decide)
  have e : renderFilename dataW "__name__.txt" = "a.txt" := by decide
  rwa [e] at h

/-- Claim C9: `addRoute` is a no-op on duplicates — when the routes file
already contains a statement invoking the router parameter's `method` with
exactly the arguments `urlPattern`, `actionPath` and `args`, `addRoute`
returns before writing and the routes file is unchanged. -/
theorem c9_addRoute_duplicate_noop (rf : RoutesFile) (method url action : String)
    (args : List String)
    (hdup : Stmt.routerCall rf.routerParam method ([url, action] ++ args) ∈ rf.body) :
    addRoute rf method url action args = (rf, false) := by
  have hmatch : isDuplicateStmt rf.routerParam method url action args
      (Stmt.routerCall rf.routerParam method ([url, action] ++ args)) = true := by
    simp [isDuplicateStmt, argsMatch_self]
  have hany : rf.body.any (isDuplicateStmt rf.routerParam method url action args) = true :=
    List.any_eq_true.mpr ⟨_, hdup, hmatch⟩
  simp [addRoute, hany]

theorem c9_witness :
    Stmt.routerCall rfW.routerParam "get" (["/a", "a/show"] ++ []) ∈ rfW.body ∧
    addRoute rfW "get" "/a" "a/show" [] = (rfW, false) := by
  exact ⟨by decide, c9_addRoute_duplicate_noop rfW "get" "/a" "a/show" [] (by decide)⟩

/-- Claim C10 counterexample: the collision key is built from the clobbered
class's `addon` property (line 120), but line 104 stores the addon name on
the loaded *module*, and line 105 registers `module.default || module` —
so a blueprint class that was its module's default export carries no
`addon` property.  When addon `addonB` later contributes a colliding
`blog`, the blueprint previously discovered from `addonA` is re-registered
under `undefined:blog`, not under `addonA:blog` as the claim states. -/
theorem c10_counterexample :
    regAfterB "addonA:blog" = none ∧
    regAfterB "undefined:blog" = some (loadRec "addonA" "dirA" entryDefaultBlog) ∧
    regAfterB "blog" = some (loadRec "addonB" "dirB" entryDirectBlog) := by
  refine ⟨by decide, by decide, by decide⟩

/-- Claim C10 (amended): when discovery finds a blueprint whose name `n` is
already registered, the previously registered blueprint is re-registered
under the JavaScript string coercion of its `addon` property followed by
`:` and `n` (that is `<its addon>:<n>` when the clobbered class was
exported directly, and `undefined:<n>` when it had been the module's
default export), the new blueprint takes the bare name, and both remain
reachable in the resulting registry. -/
theorem c10_collision_rescue (soFar : Registry) (addonName dir : String)
    (e : ModuleEntry) (n : String) (r : BlueprintRec)
    (hdir : e.isDir = true) (hname : jsOr e.bpName e.dirname = n)
    (hcollide : soFar n = some r)
    (hne : jsShow r.addon ++ ":" ++ n ≠ n) :
    discover soFar addonName dir [e] (jsShow r.addon ++ ":" ++ n) = some r ∧
    discover soFar addonName dir [e] n = some (loadRec addonName dir e) := by
  have hnew : (([e].filter fun x => x.isDir).map
      fun x => (jsOr x.bpName x.dirname, loadRec addonName dir x)) =
      [(n, loadRec addonName dir e)] := by
    simp [hdir, hname]
  have hded : ([n] : List String).dedup = [n] := by simp
  have hfiltc : ([n] : List String).filter (fun x => (soFar x).isSome) = [n] := by
    simp [hcollide]
  have hmain : discover soFar addonName dir [e] =
      regSet (regSet soFar (jsShow r.addon ++ ":" ++ n) r) n
        (loadRec addonName dir e) := by
    simp only [discover]
    rw [hnew]
    simp only [List.map_cons, List.map_nil]
    rw [hded, hfiltc]
    simp only [List.foldl_cons, List.foldl_nil]
    rw [hcollide]
  rw [hmain]
  constructor
  · simp [regSet, fun h : jsShow r.addon ++ ":" ++ n = n => hne h]
  · simp [regSet]

theorem c10_witness :
    entryDirectBlog.isDir = true ∧
    discover (discover emptyRegistry "addonA" "dirA" [entryDirectBlog])
        "addonB" "dirB" [entryDirectBlog] "addonA:blog" =
      some (loadRec "addonA" "dirA" entryDirectBlog) ∧
    discover (discover emptyRegistry "addonA" "dirA" [entryDirectBlog])
        "addonB" "dirB" [entryDirectBlog] "blog" =
      some (loadRec "addonB" "dirB" entryDirectBlog) := by
  have h := c10_collision_rescue
    (discover emptyRegistry "addonA" "dirA" [entryDirectBlog]) "addonB" "dirB"
    entryDirectBlog "blog" (loadRec "addonA" "dirA" entryDirectBlog)
    rfl rfl (by decide) (by decide)
  exact ⟨rfl, h.1, h.2⟩

end DenaliBlueprint
